import Mathlib

/-!
Verification of the lab8-ai-services chat application against its design
specification. The development shallowly embeds the JavaScript sources:
`ChatModel` (src/js/model.js), the `ElizaService` adapter (two versions
present in the repository), the `GeminiService` adapter
(src/services/GeminiService.js), and the local Eliza dialogue engine.
The engine itself (`eliza.js`) is not among the repository's files — only
its callers are — so its definitions are modelled from the specification's
words, as their doc comments state.
-/

namespace ChatModel

/-- JavaScript's `String.prototype.trim`: drop leading and trailing
whitespace. Written by structural recursion over the character list so
that concrete calls evaluate inside the kernel. -/
def trimString (s : String) : String :=
  String.mk
    (((s.data.dropWhile Char.isWhitespace).reverse.dropWhile
        Char.isWhitespace).reverse)

/-- A chat message as stored by `ChatModel` (src/js/model.js): `create`
sets `id` (from `crypto.randomUUID()`), the trimmed `text`, `isUser`,
`timestamp` (from `Date.now()`) and `edited = false`; `update` later sets
`edited` and `editedAt`. The nondeterministic environment values (the
fresh id and the clock) are passed in explicitly. -/
structure Message where
  id : String
  text : String
  isUser : Bool
  timestamp : Nat
  edited : Bool
  editedAt : Option Nat
deriving Repr, DecidableEq

/-- `ChatModel.create(text, isUser)` from src/js/model.js lines 47..66:
throws when `!text || text.trim().length === 0` (for a string argument,
exactly when the trimmed text is empty) before touching storage;
otherwise appends one new message with the trimmed text and
`edited: false` to the stored list and saves it. The stored list
(localStorage under the model's key) is passed and returned explicitly;
the first component is the call's outcome (`Except.error` = throw). -/
def create (newId : String) (now : Nat) (text : String) (isUser : Bool)
    (stored : List Message) : Except String Message × List Message :=
  if trimString text = "" then
    (.error "Message text cannot be empty", stored)
  else
    let m : Message :=
      { id := newId, text := trimString text, isUser := isUser,
        timestamp := now, edited := false, editedAt := none }
    (.ok m, stored ++ [m])

/-- Replace the first message with the given id by `f` of it, as the JS
`messages.find(...)` followed by in-place mutation of the found element
does to the array. -/
def updateFirst (id : String) (f : Message → Message) :
    List Message → List Message
  | [] => []
  | m :: ms => if m.id = id then f m :: ms else m :: updateFirst id f ms

/-- The in-place edit `update` applies to the found message: set `text`
to the trimmed new text, `edited` to true and `editedAt` to the clock,
leaving `id`, `isUser` and `timestamp` untouched. -/
def applyEdit (now : Nat) (newText : String) (m : Message) : Message :=
  { m with text := trimString newText, edited := true, editedAt := some now }

/-- `ChatModel.update(id, newText)` from src/js/model.js lines 108..134:
throws when the trimmed `newText` is empty; returns `null` (here
`.ok none`) leaving storage unchanged when no stored message has the id;
throws when the found message is not a user message; otherwise mutates
that message's `text` (trimmed), `edited` and `editedAt` fields in place
and saves the array. -/
def update (now : Nat) (id : String) (newText : String)
    (stored : List Message) : Except String (Option Message) × List Message :=
  if trimString newText = "" then
    (.error "Message text cannot be empty", stored)
  else
    match stored.find? (fun m => m.id == id) with
    | none => (.ok none, stored)
    | some m =>
      if m.isUser = false then
        (.error "Cannot edit bot messages", stored)
      else
        (.ok (some (applyEdit now newText m)),
         updateFirst id (applyEdit now newText) stored)

end ChatModel

namespace ElizaService

/-- `ElizaService.getResponse` as written in the repository file
src/unnamed/part_001 (lines 31..40): it computes
`const response = getBotResponse(message)` and then calls
`resolve(message)` — the promise resolves to the raw user message, and
the computed engine response is discarded. The engine function
`getBotResponse` is a parameter because `eliza.js` is not among the
repository's files. The `setTimeout` delay does not affect the resolved
value and is elided. -/
def getResponse_part001 (getBotResponse : String → String)
    (message : String) : String :=
  let response := getBotResponse message
  message

/-- `ElizaService.getResponse` as written in src/unnamed/part_005
(lines 14..21, two identical copies): it computes
`const response = getBotResponse(message)` and calls `resolve(response)`,
so the promise resolves to the engine's response for the message. -/
def getResponse_part005 (getBotResponse : String → String)
    (message : String) : String :=
  let response := getBotResponse message
  response

end ElizaService

namespace GeminiService

/-- A conversation-history entry as `_buildContents` reads it
(`msg.isUser`, `msg.text`). -/
structure HistMsg where
  text : String
  isUser : Bool
deriving Repr, DecidableEq

/-- One entry of the request `contents` array built for the Gemini API. -/
structure Content where
  role : String
  text : String
deriving Repr, DecidableEq

/-- `GeminiService._buildContents(message, history)` from
src/src/services/GeminiService.js lines 76..95: it converts the last ten
history messages into `contents` entries, then calls `contents.psu({...})`
— `psu` is not a method of JavaScript arrays (the intended `push` is
misspelled), so the call raises a `TypeError` before the current message
can be appended, on every input. -/
def buildContents (message : String) (history : List HistMsg) :
    Except String (List Content) :=
  let recentHistory := history.drop (history.length - 10)
  let contents := recentHistory.map (fun msg =>
    ({ role := if msg.isUser then "user" else "model",
       text := msg.text } : Content))
  .error "TypeError: contents.psu is not a function"

/-- `GeminiService.getResponse(message, history)` from
src/src/services/GeminiService.js lines 45..62: throws when the API key
is falsy (for a string key, when it is empty); otherwise calls
`_buildContents` outside the try block, so the `TypeError` it raises
propagates to the caller. Were `_buildContents` ever to return,
`this._makeRequest` — never defined on the class — would raise inside
the try and be rethrown as `Gemini failed: ...`. -/
def getResponse (apiKey : String) (message : String)
    (history : List HistMsg) : Except String String :=
  if apiKey = "" then .error "Gemini API key is required"
  else
    match buildContents message history with
    | .error e => .error e
    | .ok _ => .error "Gemini failed: this._makeRequest is not a function"

end GeminiService

namespace Eliza

/-- Modelled from the spec: `eliza.js`, the local dialogue engine, is not
among the repository's files, so its data model follows §3 of the spec.
One element of a decomposition pattern: a literal token or a wildcard
marker. -/
inductive PatTok where
  | lit : String → PatTok
  | wild : PatTok
deriving Repr, DecidableEq

/-- Modelled from the spec: one piece of a reassembly template — literal
text or a 0-based positional placeholder referencing a captured wildcard
slot (§3, ReassemblyTemplate). -/
inductive TplPart where
  | lit : String → TplPart
  | cap : Nat → TplPart
deriving Repr, DecidableEq

/-- Modelled from the spec: a DecompositionPattern (§3) — the pattern, an
ordered list of reassembly templates, and the memory flag. -/
structure Decomp where
  pattern : List PatTok
  reassemblies : List (List TplPart)
  memoryFlag : Bool
deriving Repr, DecidableEq

/-- Modelled from the spec: a Rule (§3) — keyword, integer rank, ordered
decomposition patterns. -/
structure Rule where
  keyword : String
  rank : Int
  decompositions : List Decomp
deriving Repr, DecidableEq

/-- Modelled from the spec: a SynonymGroup (§3) mapping surface words to
one canonical keyword. -/
structure SynonymGroup where
  canonicalKeyword : String
  members : List String
deriving Repr, DecidableEq

/-- Modelled from the spec: the rule table a script load produces — the
rules, the synonym groups, the fallback-response list (§6) and the
memory-specific template set of §4.6. -/
structure Script where
  rules : List Rule
  synonyms : List SynonymGroup
  fallbacks : List String
  memoryTemplates : List (List TplPart)
deriving Repr, DecidableEq

/-- Modelled from the spec: the per-conversation SessionState (§3) —
per-(keyword, patternIndex) usage counters, the FIFO memory queue, and
the fallback rotation counter. The counters are an association list read
through `getCounter`; an absent key reads as 0. -/
structure SessionState where
  usageCounters : List ((String × Nat) × Nat)
  memoryQueue : List String
  fallbackCounter : Nat
deriving Repr, DecidableEq

/-- Modelled from the spec: the per-call ConfigurationError of §7 — a
reassembly placeholder out of range at substitution time, or a pattern
left with no reassembly template. -/
inductive ConfigurationError where
  | badCaptureIndex : Nat → ConfigurationError
  | noReassembly : ConfigurationError
deriving Repr, DecidableEq

/-- Modelled from the spec: the load-time ScriptError taxonomy of §6/§7. -/
inductive ScriptError where
  | duplicateKeyword : ScriptError
  | emptyReassembly : ScriptError
  | badPlaceholder : ScriptError
deriving Repr, DecidableEq

/-- Modelled from the spec: the Normalizer's fixed contraction table
(§4.1). Punctuation, apostrophes included, has already been stripped to
spaces when the table is consulted, so the keys are apostrophe-free. -/
def contractionTable : List (String × List String) :=
  [("dont", ["do", "not"]), ("cant", ["can", "not"]),
   ("wont", ["will", "not"]), ("im", ["i", "am"]),
   ("youre", ["you", "are"])]

def expandContraction (t : String) : List String :=
  match contractionTable.lookup t with
  | some ws => ws
  | none => [t]

/-- Case-fold a character and turn anything that is not a letter or a
digit into a token boundary. -/
def normChar (c : Char) : Char :=
  if c.isAlpha || c.isDigit then c.toLower else ' '

/-- Accumulator pass for `splitTokens`: `cur` holds the characters of
the current token in reverse. -/
def splitAux : List Char → List Char → List String
  | [], cur => if cur.isEmpty then [] else [String.mk cur.reverse]
  | c :: cs, cur =>
    if c = ' ' then
      if cur.isEmpty then splitAux cs []
      else String.mk cur.reverse :: splitAux cs []
    else splitAux cs (c :: cur)

/-- Split a character list into its maximal space-free runs. -/
def splitTokens (cs : List Char) : List String := splitAux cs []

/-- Modelled from the spec: the Normalizer (§4.1) — case-fold, strip
punctuation as token boundaries, trim repeated whitespace, expand the
contraction table. Empty input normalizes to the empty token list. -/
def normalize (raw : String) : List String :=
  (splitTokens (raw.data.map normChar)).flatMap expandContraction

/-- Modelled from the spec: synonym resolution (§3, §4.2) — a token that
belongs to a group's members reads as the group's canonical keyword. -/
def resolveSynonym (syns : List SynonymGroup) (w : String) : String :=
  match syns.find? (fun g => g.members.contains w) with
  | some g => g.canonicalKeyword
  | none => w

/-- Index of the first token that resolves to the given keyword. -/
def firstOccurrence (syns : List SynonymGroup) (tokens : List String)
    (kw : String) : Option Nat :=
  tokens.findIdx? (fun t => resolveSynonym syns t == kw)

/-- Modelled from the spec: the Keyword Selector's candidate set (§4.2) —
each rule whose keyword occurs among the resolved tokens, paired with the
index of its first occurrence. -/
def candidates (script : Script) (tokens : List String) :
    List (Rule × Nat) :=
  script.rules.filterMap (fun r =>
    (firstOccurrence script.synonyms tokens r.keyword).map (fun i => (r, i)))

/-- Of two candidates keep the better: strictly higher rank wins, an
equal-rank strictly earlier first occurrence wins, otherwise the
incumbent stays. -/
def betterCand (a b : Rule × Nat) : Rule × Nat :=
  if a.1.rank < b.1.rank then b
  else if b.1.rank = a.1.rank ∧ b.2 < a.2 then b
  else a

/-- Modelled from the spec: the Keyword Selector (§4.2) — highest rank,
ties broken by earliest first occurrence; `none` is the defined no-match
outcome. -/
def selectKeyword (script : Script) (tokens : List String) :
    Option (Rule × Nat) :=
  match candidates script tokens with
  | [] => none
  | c :: cs => some (cs.foldl betterCand c)

/-- Number of wildcard markers (capture slots) in a pattern. -/
def countWild : List PatTok → Nat
  | [] => 0
  | .wild :: ps => countWild ps + 1
  | .lit _ :: ps => countWild ps

/-- Modelled from the spec: the Decomposition Matcher's structural match
(§4.3) — literals must match tokens exactly, a wildcard captures a token
span, longest-match-first; the captures are returned in order, one per
wildcard. -/
def matchPat : List PatTok → List String → Option (List (List String))
  | [], [] => some []
  | [], _ :: _ => none
  | .lit _ :: _, [] => none
  | .lit w :: ps, t :: ts => if w = t then matchPat ps ts else none
  | .wild :: ps, ts =>
    ((List.range (ts.length + 1)).reverse).findSome? (fun k =>
      (matchPat ps (ts.drop k)).map (fun caps => ts.take k :: caps))
termination_by structural p _ => p

/-- Try a rule's decomposition patterns in order (§4.3): the first that
structurally matches wins, returned with its index and captures. -/
def firstDecompAux (tokens : List String) :
    Nat → List Decomp → Option (Nat × Decomp × List (List String))
  | _, [] => none
  | i, d :: ds =>
    match matchPat d.pattern tokens with
    | some caps => some (i, d, caps)
    | none => firstDecompAux tokens (i + 1) ds

/-- Modelled from the spec: the Pronoun/Reflection Transformer's fixed
bidirectional substitution table (§4.4), consulted word by word. -/
def reflectWord (w : String) : String :=
  if w = "i" then "you" else if w = "me" then "you"
  else if w = "my" then "your" else if w = "mine" then "yours"
  else if w = "myself" then "yourself" else if w = "am" then "are"
  else if w = "you" then "i" else if w = "your" then "my"
  else if w = "yours" then "mine" else if w = "yourself" then "myself"
  else if w = "are" then "am" else w

/-- Word-by-word reflection of one captured fragment, order preserved. -/
def reflect (frag : List String) : List String := frag.map reflectWord

/-- Fill a template's parts: literal text is kept, each placeholder is
replaced by the pronoun-transformed capture it references; an out-of-range
index is the per-call ConfigurationError of §4.5. -/
def fillAux (caps : List (List String)) :
    List TplPart → Except ConfigurationError (List String)
  | [] => .ok []
  | .lit s :: rest => (fillAux caps rest).map (fun ws => s :: ws)
  | .cap i :: rest =>
    match caps.get? i with
    | some frag => (fillAux caps rest).map (fun ws => reflect frag ++ ws)
    | none => .error (.badCaptureIndex i)

/-- Modelled from the spec: the Reassembly Generator's substitution step
(§4.5) — captures are pronoun-transformed before substitution, literal
template text is never transformed. -/
def fillTemplate (tpl : List TplPart) (caps : List (List String)) :
    Except ConfigurationError String :=
  (fillAux caps tpl).map (fun ws => String.intercalate " " ws)

/-- Read a usage counter; an absent (keyword, patternIndex) key is 0. -/
def getCounter : List ((String × Nat) × Nat) → (String × Nat) → Nat
  | [], _ => 0
  | (k2, v) :: rest, k => if k2 = k then v else getCounter rest k

/-- Store a usage counter; the new binding shadows any older one. -/
def setCounter (cs : List ((String × Nat) × Nat)) (k : String × Nat)
    (v : Nat) : List ((String × Nat) × Nat) :=
  (k, v) :: cs

/-- Modelled from the spec: the memory queue's small bound (§3 says "a
handful of entries"). -/
def memoryCap : Nat := 5

/-- Modelled from the spec: bounded FIFO push (§3, §4.6) — append at the
back; when the cap is exceeded the oldest entries fall off the front. -/
def pushMemory (q : List String) (s : String) : List String :=
  let q2 := q ++ [s]
  if memoryCap < q2.length then q2.drop (q2.length - memoryCap) else q2

/-- Modelled from the spec: the no-match turn (§4.6, §4.7) — pop the
oldest memorized statement if there is one, otherwise rotate through the
fallback list. -/
def noMatchTurn (script : Script) (st : SessionState) :
    String × SessionState :=
  match st.memoryQueue with
  | m :: rest => (m, { st with memoryQueue := rest })
  | [] =>
    (script.fallbacks.getD (st.fallbackCounter % script.fallbacks.length) "",
     { st with fallbackCounter := st.fallbackCounter + 1 })

/-- The reassembly step of §4.5 once the session state is settled:
rotation-select `reassemblies[counter % length]` and fill it; an absent
template (only possible for an empty template list the validator would
have refused) is the `ConfigurationError` of §7. -/
def finishMatch (d : Decomp) (caps : List (List String)) (c : Nat)
    (st2 : SessionState) : Except ConfigurationError (String × SessionState) :=
  match d.reassemblies.get? (c % d.reassemblies.length) with
  | none => .error .noReassembly
  | some tpl => (fillTemplate tpl caps).map (fun out => (out, st2))

/-- Increment the (keyword, patternIndex) usage counter in the session
state, as §4.5 stores it back after each use. -/
def bumpCounters (st : SessionState) (key : String × Nat) : SessionState :=
  { st with usageCounters :=
      setCounter st.usageCounters key (getCounter st.usageCounters key + 1) }

/-- Push a memorized statement onto the session's bounded queue. -/
def pushQueue (st : SessionState) (ms : String) : SessionState :=
  { st with memoryQueue := pushMemory st.memoryQueue ms }

/-- The matched-turn step of §4.5/§4.6: bump the (keyword, patternIndex)
usage counter, push the memorized statement when the pattern is
memory-flagged (failing with the memory template's `ConfigurationError`
if its placeholder is out of range), then fill the rotation-selected
reassembly template. -/
def applyMatch (script : Script) (kw : String) (j : Nat) (d : Decomp)
    (caps : List (List String)) (st : SessionState) :
    Except ConfigurationError (String × SessionState) :=
  let c := getCounter st.usageCounters (kw, j)
  cond d.memoryFlag
    (match fillTemplate (script.memoryTemplates.getD 0 []) caps with
     | .error e => .error e
     | .ok ms => finishMatch d caps c (pushQueue (bumpCounters st (kw, j)) ms))
    (finishMatch d caps c (bumpCounters st (kw, j)))

/-- Modelled from the spec: `respond`, the engine's sole entry point
(§6), covering the whole per-turn control flow of §2: normalize, select
a keyword, match a decomposition, push the memory statement when the
pattern is memory-flagged, rotate and fill a reassembly template; a
no-match (no keyword, or no pattern of the selected rule matches) goes
to memory recall then fallback. The only failure is a
`ConfigurationError`. -/
def respond (script : Script) (input : String) (st : SessionState) :
    Except ConfigurationError (String × SessionState) :=
  match selectKeyword script (normalize input) with
  | none => .ok (noMatchTurn script st)
  | some cand =>
    match firstDecompAux (normalize input) 0 cand.1.decompositions with
    | none => .ok (noMatchTurn script st)
    | some (j, d, caps) => applyMatch script cand.1.keyword j d caps st

/-- Modelled from the spec: `createSession` (§6) — a fresh, empty
session. -/
def createSession : SessionState :=
  { usageCounters := [], memoryQueue := [], fallbackCounter := 0 }

/-- A keyword appearing under two distinct rule positions. -/
def keywordDup : List Rule → Bool
  | [] => false
  | r :: rs => rs.any (fun r2 => r2.keyword == r.keyword) || keywordDup rs

/-- A template referencing a capture slot the pattern does not have. -/
def tplBad (wilds : Nat) (tpl : List TplPart) : Bool :=
  tpl.any (fun part =>
    match part with
    | .cap i => decide (wilds ≤ i)
    | .lit _ => false)

def decompEmpty (s : Script) : Bool :=
  s.rules.any (fun r => r.decompositions.any (fun d => d.reassemblies.isEmpty))

def decompBadPlaceholder (s : Script) : Bool :=
  s.rules.any (fun r => r.decompositions.any (fun d =>
    d.reassemblies.any (tplBad (countWild d.pattern))))

/-- Modelled from the spec: rule-table load (§6) — fails with a
`ScriptError` if a keyword is duplicated, a decomposition pattern has
zero reassembly templates, or a reassembly placeholder index has no
corresponding wildcard in its pattern; otherwise the script is served
unchanged. -/
def loadScript (s : Script) : Except ScriptError Script :=
  if keywordDup s.rules then .error .duplicateKeyword
  else if decompEmpty s then .error .emptyReassembly
  else if decompBadPlaceholder s then .error .badPlaceholder
  else .ok s

/-- Modelled from the spec: N successive invocations of `respond` with
the same input within one session, collecting the N responses (used to
state the reassembly-rotation property of §8). -/
def respondN (script : Script) (input : String) :
    Nat → SessionState → Except ConfigurationError (List String × SessionState)
  | 0, st => .ok ([], st)
  | n + 1, st =>
    match respond script input st with
    | .error e => .error e
    | .ok (r, st2) =>
      match respondN script input n st2 with
      | .error e => .error e
      | .ok (rs, stf) => .ok (r :: rs, stf)

/-- The memory template in use references only capture slots that every
memory-flagged decomposition pattern of the script provides. Scripts
whose memory template set is honest in this sense never hit a
ConfigurationError while memorizing. -/
def memTplOk (s : Script) : Bool :=
  (s.memoryTemplates.getD 0 []).all (fun part =>
    match part with
    | .cap i => s.rules.all (fun r => r.decompositions.all (fun d =>
        !d.memoryFlag || decide (i < countWild d.pattern)))
    | .lit _ => true)

/-- Candidate `a` is at least as good as candidate `b` under §4.2's
policy: strictly higher rank, or equal rank and a first occurrence no
later. -/
def dominates (a b : Rule × Nat) : Prop :=
  b.1.rank < a.1.rank ∨ (b.1.rank = a.1.rank ∧ a.2 ≤ b.2)

/-- A memory-flagged decomposition of the keyword "my" with three
rotating reassembly templates, used to instantiate the engine
theorems. -/
def wMyDecomp : Decomp :=
  { pattern := [.lit "my", .wild],
    reassemblies := [[.lit "Your", .cap 0],
      [.lit "Tell me more about your", .cap 0],
      [.lit "Why your", .cap 0]],
    memoryFlag := true }

/-- The rule holding `wMyDecomp`. -/
def wMyRule : Rule :=
  { keyword := "my", rank := 2, decompositions := [wMyDecomp] }

/-- A small concrete script used to instantiate the engine theorems: a
high-rank keyword reachable through a synonym, the memory-flagged rule
`wMyRule`, and a two-entry fallback list. -/
def wScript : Script :=
  { rules := [
      { keyword := "computer", rank := 10,
        decompositions := [
          { pattern := [.wild],
            reassemblies := [[.lit "Do computers worry you?"]],
            memoryFlag := false }] },
      wMyRule,
      { keyword := "hello", rank := 2,
        decompositions := [
          { pattern := [.wild],
            reassemblies := [[.lit "Hi there."]],
            memoryFlag := false }] }],
    synonyms := [
      { canonicalKeyword := "computer",
        members := ["machine", "computers"] }],
    fallbacks := ["Please go on.", "I see."],
    memoryTemplates := [[.lit "Earlier you said your", .cap 0]] }

/-- The session state `respond` produces from a fresh session after the
memory-flagged turn "my dog" against `wScript`. -/
def wSt1 : SessionState :=
  { usageCounters := [(("my", 0), 1)],
    memoryQueue := ["Earlier you said your dog"],
    fallbackCounter := 0 }

end Eliza

theorem ChatModel.length_updateFirst (id : String)
    (f : ChatModel.Message → ChatModel.Message) (l : List ChatModel.Message) :
    (ChatModel.updateFirst id f l).length = l.length := by
  induction l with
  | nil => rfl
  | cons m ms ih =>
    simp only [ChatModel.updateFirst]
    by_cases h : m.id = id <;> simp [h, ih]

theorem ChatModel.updateFirst_get?_ne (id : String)
    (f : ChatModel.Message → ChatModel.Message) (l : List ChatModel.Message)
    (i : Nat) (m : ChatModel.Message)
    (hget : l.get? i = some m) (hne : m.id ≠ id) :
    (ChatModel.updateFirst id f l).get? i = some m := by
  induction l generalizing i with
  | nil => simp at hget
  | cons a l ih =>
    cases i with
    | zero =>
      simp only [List.get?] at hget
      cases hget
      simp only [ChatModel.updateFirst]
      rw [if_neg hne]
      rfl
    | succ n =>
      simp only [List.get?] at hget
      simp only [ChatModel.updateFirst]
      by_cases h : a.id = id
      · rw [if_pos h]
        simpa using hget
      · rw [if_neg h]
        simpa using ih n hget

theorem Eliza.matchPat_length (p : List Eliza.PatTok) :
    ∀ ts caps, Eliza.matchPat p ts = some caps →
      caps.length = Eliza.countWild p := by
  induction p with
  | nil =>
    intro ts caps h
    cases ts with
    | nil =>
      simp only [Eliza.matchPat] at h
      cases h
      rfl
    | cons t ts2 => simp [Eliza.matchPat] at h
  | cons hd tl ih =>
    intro ts caps h
    cases hd with
    | lit w =>
      cases ts with
      | nil => simp [Eliza.matchPat] at h
      | cons t ts2 =>
        simp only [Eliza.matchPat] at h
        by_cases hw : w = t
        · rw [if_pos hw] at h
          simpa [Eliza.countWild] using ih ts2 caps h
        · rw [if_neg hw] at h
          cases h
    | wild =>
      simp only [Eliza.matchPat] at h
      obtain ⟨k, hk, hfk⟩ := List.exists_of_findSome?_eq_some h
      cases hmp : Eliza.matchPat tl (ts.drop k) with
      | none => rw [hmp] at hfk; simp at hfk
      | some caps2 =>
        rw [hmp] at hfk
        simp only [Option.map_some'] at hfk
        have hlen := ih (ts.drop k) caps2 hmp
        obtain rfl : List.take k ts :: caps2 = caps := Option.some.inj hfk
        simp [Eliza.countWild, hlen]

theorem Eliza.fillAux_isOk (caps : List (List String))
    (tpl : List Eliza.TplPart)
    (h : ∀ i, Eliza.TplPart.cap i ∈ tpl → i < caps.length) :
    ∃ ws, Eliza.fillAux caps tpl = .ok ws := by
  induction tpl with
  | nil => exact ⟨[], rfl⟩
  | cons part rest ih =>
    obtain ⟨ws, hws⟩ := ih (fun i hi => h i (List.mem_cons_of_mem _ hi))
    cases part with
    | lit s =>
      exact ⟨s :: ws, by simp [Eliza.fillAux, hws, Except.map]⟩
    | cap i =>
      have hi : i < caps.length := h i (List.mem_cons_self _ _)
      have hget := List.getElem?_eq_getElem hi
      exact ⟨Eliza.reflect (caps.get ⟨i, hi⟩) ++ ws,
        by simp [Eliza.fillAux, hget, hws, Except.map]⟩

theorem Eliza.fillTemplate_isOk (caps : List (List String))
    (tpl : List Eliza.TplPart)
    (h : ∀ i, Eliza.TplPart.cap i ∈ tpl → i < caps.length) :
    ∃ out, Eliza.fillTemplate tpl caps = .ok out := by
  obtain ⟨ws, hws⟩ := Eliza.fillAux_isOk caps tpl h
  exact ⟨String.intercalate " " ws,
    by simp [Eliza.fillTemplate, hws, Except.map]⟩

theorem Eliza.firstDecompAux_spec (tokens : List String)
    (ds : List Eliza.Decomp) :
    ∀ i j d caps, Eliza.firstDecompAux tokens i ds = some (j, d, caps) →
      d ∈ ds ∧ Eliza.matchPat d.pattern tokens = some caps := by
  induction ds with
  | nil => intro i j d caps h; simp [Eliza.firstDecompAux] at h
  | cons d0 ds ih =>
    intro i j d caps h
    simp only [Eliza.firstDecompAux] at h
    cases hm : Eliza.matchPat d0.pattern tokens with
    | some caps0 =>
      rw [hm] at h
      have h2 : i = j ∧ d0 = d ∧ caps0 = caps := by simpa using h
      obtain ⟨-, rfl, rfl⟩ := h2
      exact ⟨List.mem_cons_self _ _, hm⟩
    | none =>
      rw [hm] at h
      obtain ⟨hmem, hmp⟩ := ih (i + 1) j d caps h
      exact ⟨List.mem_cons_of_mem _ hmem, hmp⟩

theorem Eliza.candidates_rule_mem (script : Eliza.Script)
    (tokens : List String) (c : Eliza.Rule × Nat)
    (h : c ∈ Eliza.candidates script tokens) : c.1 ∈ script.rules := by
  obtain ⟨r, hr, hmap⟩ := List.mem_filterMap.mp h
  cases hocc : Eliza.firstOccurrence script.synonyms tokens r.keyword with
  | none => rw [hocc] at hmap; cases hmap
  | some i =>
    rw [hocc] at hmap
    simp only [Option.map_some'] at hmap
    cases hmap
    exact hr

theorem Eliza.dominates_refl (a : Eliza.Rule × Nat) : Eliza.dominates a a := by
  unfold Eliza.dominates
  omega

theorem Eliza.dominates_trans (a b c : Eliza.Rule × Nat)
    (h1 : Eliza.dominates a b) (h2 : Eliza.dominates b c) :
    Eliza.dominates a c := by
  unfold Eliza.dominates at h1 h2 ⊢
  omega

theorem Eliza.betterCand_cases (a b : Eliza.Rule × Nat) :
    Eliza.betterCand a b = a ∨ Eliza.betterCand a b = b := by
  unfold Eliza.betterCand
  split
  · right; rfl
  · split
    · right; rfl
    · left; rfl

theorem Eliza.betterCand_dom_left (a b : Eliza.Rule × Nat) :
    Eliza.dominates (Eliza.betterCand a b) a := by
  unfold Eliza.betterCand Eliza.dominates
  split
  · omega
  · split
    · omega
    · omega

theorem Eliza.betterCand_dom_right (a b : Eliza.Rule × Nat) :
    Eliza.dominates (Eliza.betterCand a b) b := by
  unfold Eliza.betterCand Eliza.dominates
  split
  · omega
  · split
    · omega
    · omega

theorem Eliza.foldl_betterCand_spec (l : List (Eliza.Rule × Nat)) :
    ∀ acc, (l.foldl Eliza.betterCand acc = acc
        ∨ l.foldl Eliza.betterCand acc ∈ l)
      ∧ Eliza.dominates (l.foldl Eliza.betterCand acc) acc
      ∧ ∀ x ∈ l, Eliza.dominates (l.foldl Eliza.betterCand acc) x := by
  induction l with
  | nil =>
    intro acc
    exact ⟨Or.inl rfl, Eliza.dominates_refl acc, by simp⟩
  | cons b bs ih =>
    intro acc
    obtain ⟨hmem, hdom, hall⟩ := ih (Eliza.betterCand acc b)
    have hstep : (b :: bs).foldl Eliza.betterCand acc
        = bs.foldl Eliza.betterCand (Eliza.betterCand acc b) := rfl
    refine ⟨?_, ?_, ?_⟩
    · rw [hstep]
      rcases hmem with h | h
      · rcases Eliza.betterCand_cases acc b with hc | hc
        · exact Or.inl (h.trans hc)
        · exact Or.inr (by rw [h, hc]; exact List.mem_cons_self _ _)
      · exact Or.inr (List.mem_cons_of_mem _ h)
    · rw [hstep]
      exact Eliza.dominates_trans _ _ _ hdom (Eliza.betterCand_dom_left acc b)
    · intro x hx
      rw [hstep]
      rcases List.mem_cons.mp hx with hxb | hxbs
      · subst hxb
        exact Eliza.dominates_trans _ _ _ hdom
          (Eliza.betterCand_dom_right acc x)
      · exact hall x hxbs

theorem Eliza.selectKeyword_mem (script : Eliza.Script)
    (tokens : List String) (c : Eliza.Rule × Nat)
    (h : Eliza.selectKeyword script tokens = some c) :
    c ∈ Eliza.candidates script tokens := by
  unfold Eliza.selectKeyword at h
  cases hc : Eliza.candidates script tokens with
  | nil => rw [hc] at h; cases h
  | cons c0 cs =>
    rw [hc] at h
    obtain ⟨hmem, -, -⟩ := Eliza.foldl_betterCand_spec cs c0
    cases h
    rcases hmem with h2 | h2
    · rw [h2]; exact List.mem_cons_self _ _
    · exact List.mem_cons_of_mem _ h2

theorem Eliza.tplBad_iff (w : Nat) (tpl : List Eliza.TplPart) :
    Eliza.tplBad w tpl = true
      ↔ ∃ i, Eliza.TplPart.cap i ∈ tpl ∧ w ≤ i := by
  unfold Eliza.tplBad
  rw [List.any_eq_true]
  constructor
  · rintro ⟨part, hmem, hp⟩
    cases part with
    | lit s => simp at hp
    | cap i => exact ⟨i, hmem, by simpa using hp⟩
  · rintro ⟨i, hmem, hle⟩
    exact ⟨.cap i, hmem, by simpa using hle⟩

theorem Eliza.keywordDup_iff (rs : List Eliza.Rule) :
    Eliza.keywordDup rs = true ↔ ¬ (rs.map Eliza.Rule.keyword).Nodup := by
  induction rs with
  | nil => simp [Eliza.keywordDup]
  | cons r rs ih =>
    simp only [Eliza.keywordDup, Bool.or_eq_true, List.any_eq_true,
      List.map_cons, List.nodup_cons, ih]
    constructor
    · rintro (⟨r2, hmem, heq⟩ | hdup)
      · intro hcon
        exact hcon.1 (List.mem_map.mpr ⟨r2, hmem, beq_iff_eq.mp heq⟩)
      · intro hcon
        exact hdup hcon.2
    · intro hcon
      by_cases hmem : r.keyword ∈ rs.map Eliza.Rule.keyword
      · obtain ⟨r2, hr2, heq⟩ := List.mem_map.mp hmem
        exact Or.inl ⟨r2, hr2, beq_iff_eq.mpr heq⟩
      · exact Or.inr fun hnd => hcon ⟨hmem, hnd⟩

theorem Eliza.decompEmpty_iff (s : Eliza.Script) :
    Eliza.decompEmpty s = true
      ↔ ∃ r ∈ s.rules, ∃ d ∈ r.decompositions, d.reassemblies = [] := by
  unfold Eliza.decompEmpty
  simp [List.any_eq_true, List.isEmpty_iff]

theorem Eliza.decompBadPlaceholder_iff (s : Eliza.Script) :
    Eliza.decompBadPlaceholder s = true
      ↔ ∃ r ∈ s.rules, ∃ d ∈ r.decompositions, ∃ tpl ∈ d.reassemblies,
          ∃ i, Eliza.TplPart.cap i ∈ tpl ∧ Eliza.countWild d.pattern ≤ i := by
  unfold Eliza.decompBadPlaceholder
  simp [List.any_eq_true, Eliza.tplBad_iff]

theorem Eliza.loadScript_ok_spec (s : Eliza.Script)
    (h : (Eliza.loadScript s).isOk = true) :
    Eliza.keywordDup s.rules = false ∧ Eliza.decompEmpty s = false
      ∧ Eliza.decompBadPlaceholder s = false := by
  unfold Eliza.loadScript at h
  cases h1 : Eliza.keywordDup s.rules with
  | true => rw [h1] at h; simp [Except.isOk, Except.toBool] at h
  | false =>
    rw [h1] at h
    cases h2 : Eliza.decompEmpty s with
    | true => rw [h2] at h; simp [Except.isOk, Except.toBool] at h
    | false =>
      rw [h2] at h
      cases h3 : Eliza.decompBadPlaceholder s with
      | true => rw [h3] at h; simp [Except.isOk, Except.toBool] at h
      | false => exact ⟨rfl, rfl, rfl⟩

theorem Eliza.validScript_decomp (s : Eliza.Script)
    (h : (Eliza.loadScript s).isOk = true)
    (r : Eliza.Rule) (hr : r ∈ s.rules) (d : Eliza.Decomp)
    (hd : d ∈ r.decompositions) :
    d.reassemblies ≠ []
    ∧ ∀ tpl ∈ d.reassemblies, ∀ i, Eliza.TplPart.cap i ∈ tpl →
        i < Eliza.countWild d.pattern := by
  obtain ⟨-, h2, h3⟩ := Eliza.loadScript_ok_spec s h
  constructor
  · intro hnil
    have hcon : Eliza.decompEmpty s = true :=
      (Eliza.decompEmpty_iff s).mpr ⟨r, hr, d, hd, hnil⟩
    rw [hcon] at h2
    cases h2
  · intro tpl htpl i hcap
    by_contra hcon
    push_neg at hcon
    have hbad : Eliza.decompBadPlaceholder s = true :=
      (Eliza.decompBadPlaceholder_iff s).mpr
        ⟨r, hr, d, hd, tpl, htpl, i, hcap, hcon⟩
    rw [hbad] at h3
    cases h3

theorem Eliza.memTplOk_spec (s : Eliza.Script) (h : Eliza.memTplOk s = true)
    (r : Eliza.Rule) (hr : r ∈ s.rules) (d : Eliza.Decomp)
    (hd : d ∈ r.decompositions) (hflag : d.memoryFlag = true) :
    ∀ i, Eliza.TplPart.cap i ∈ s.memoryTemplates.getD 0 [] →
      i < Eliza.countWild d.pattern := by
  intro i hcap
  unfold Eliza.memTplOk at h
  rw [List.all_eq_true] at h
  have h2 := h _ hcap
  simp only [List.all_eq_true] at h2
  have h4 := h2 r hr d hd
  rw [hflag] at h4
  simpa using h4

/-- C4: whenever the normalized input yields any keyword candidates the
Keyword Selector selects one, and the selected candidate is of maximal
rank among all candidates regardless of token position; among candidates
of equal (maximal) rank, the selected keyword's first occurrence in the
input is earliest. -/
theorem eliza_keyword_selector_policy (script : Eliza.Script)
    (tokens : List String) :
    (Eliza.candidates script tokens ≠ [] →
      ∃ c, Eliza.selectKeyword script tokens = some c)
    ∧ ∀ c, Eliza.selectKeyword script tokens = some c →
        c ∈ Eliza.candidates script tokens
        ∧ ∀ c2 ∈ Eliza.candidates script tokens,
            c2.1.rank ≤ c.1.rank ∧ (c2.1.rank = c.1.rank → c.2 ≤ c2.2) := by
  constructor
  · intro hne
    cases hc : Eliza.candidates script tokens with
    | nil => exact absurd hc hne
    | cons c0 cs =>
      exact ⟨cs.foldl Eliza.betterCand c0, by simp [Eliza.selectKeyword, hc]⟩
  · intro c hsel
    refine ⟨Eliza.selectKeyword_mem script tokens c hsel, ?_⟩
    intro c2 hc2
    unfold Eliza.selectKeyword at hsel
    cases hc : Eliza.candidates script tokens with
    | nil => rw [hc] at hsel; cases hsel
    | cons c0 cs =>
      rw [hc] at hsel
      obtain ⟨-, hdom0, hall⟩ := Eliza.foldl_betterCand_spec cs c0
      have hcc : cs.foldl Eliza.betterCand c0 = c := Option.some.inj hsel
      rw [hc] at hc2
      have hdom : Eliza.dominates c c2 := by
        rcases List.mem_cons.mp hc2 with h | h
        · rw [h, ← hcc]; exact hdom0
        · rw [← hcc]; exact hall c2 h
      unfold Eliza.dominates at hdom
      omega

/-- C7: rule-table load fails with a `ScriptError` exactly when the
script is malformed — a duplicated keyword, a decomposition pattern with
zero reassembly templates, or a reassembly placeholder index with no
corresponding wildcard in its pattern; and a successful load serves the
script unchanged, so a script an engine serves passed validation. -/
theorem eliza_loadScript_error_iff (s : Eliza.Script) :
    ((∃ e, Eliza.loadScript s = .error e) ↔
      (¬ (s.rules.map Eliza.Rule.keyword).Nodup
       ∨ (∃ r ∈ s.rules, ∃ d ∈ r.decompositions, d.reassemblies = [])
       ∨ (∃ r ∈ s.rules, ∃ d ∈ r.decompositions, ∃ tpl ∈ d.reassemblies,
            ∃ i, Eliza.TplPart.cap i ∈ tpl
              ∧ Eliza.countWild d.pattern ≤ i)))
    ∧ (¬ (∃ e, Eliza.loadScript s = .error e) →
        Eliza.loadScript s = .ok s) := by
  unfold Eliza.loadScript
  cases h1 : Eliza.keywordDup s.rules with
  | true =>
    simp only [if_true]
    refine ⟨⟨fun _ => Or.inl ((Eliza.keywordDup_iff s.rules).mp h1),
      fun _ => ⟨.duplicateKeyword, rfl⟩⟩, ?_⟩
    intro hcon
    exact absurd ⟨Eliza.ScriptError.duplicateKeyword, rfl⟩ hcon
  | false =>
    simp only [Bool.false_eq_true, if_false]
    cases h2 : Eliza.decompEmpty s with
    | true =>
      simp only [if_true]
      refine ⟨⟨fun _ => Or.inr (Or.inl ((Eliza.decompEmpty_iff s).mp h2)),
        fun _ => ⟨.emptyReassembly, rfl⟩⟩, ?_⟩
      intro hcon
      exact absurd ⟨Eliza.ScriptError.emptyReassembly, rfl⟩ hcon
    | false =>
      simp only [Bool.false_eq_true, if_false]
      cases h3 : Eliza.decompBadPlaceholder s with
      | true =>
        simp only [if_true]
        refine ⟨⟨fun _ =>
          Or.inr (Or.inr ((Eliza.decompBadPlaceholder_iff s).mp h3)),
          fun _ => ⟨.badPlaceholder, rfl⟩⟩, ?_⟩
        intro hcon
        exact absurd ⟨Eliza.ScriptError.badPlaceholder, rfl⟩ hcon
      | false =>
        simp only [Bool.false_eq_true, if_false]
        refine ⟨⟨?_, ?_⟩, fun _ => by trivial⟩
        · rintro ⟨e, he⟩
          cases he
        · rintro (hcon | hcon | hcon)
          · rw [(Eliza.keywordDup_iff s.rules).mpr hcon] at h1
            cases h1
          · rw [(Eliza.decompEmpty_iff s).mpr hcon] at h2
            cases h2
          · rw [(Eliza.decompBadPlaceholder_iff s).mpr hcon] at h3
            cases h3

theorem Eliza.except_isOk_exists {ε α : Type} (e : Except ε α)
    (h : e.isOk = true) : ∃ a, e = .ok a := by
  cases e with
  | error e2 => simp [Except.isOk, Except.toBool] at h
  | ok a => exact ⟨a, rfl⟩

theorem Eliza.getCounter_setCounter (cs : List ((String × Nat) × Nat))
    (k : String × Nat) (v : Nat) :
    Eliza.getCounter (Eliza.setCounter cs k v) k = v := by
  simp [Eliza.getCounter, Eliza.setCounter]

theorem Eliza.respond_no_match (script : Eliza.Script) (input : String)
    (st : Eliza.SessionState)
    (h : Eliza.selectKeyword script (Eliza.normalize input) = none) :
    Eliza.respond script input st = .ok (Eliza.noMatchTurn script st) := by
  unfold Eliza.respond
  rw [h]

theorem Eliza.respond_no_decomp (script : Eliza.Script) (input : String)
    (st : Eliza.SessionState) (cand : Eliza.Rule × Nat)
    (h1 : Eliza.selectKeyword script (Eliza.normalize input) = some cand)
    (h2 : Eliza.firstDecompAux (Eliza.normalize input) 0
        cand.1.decompositions = none) :
    Eliza.respond script input st = .ok (Eliza.noMatchTurn script st) := by
  unfold Eliza.respond
  simp only [h1]
  rw [h2]

theorem Eliza.respond_match (script : Eliza.Script) (input : String)
    (st : Eliza.SessionState) (cand : Eliza.Rule × Nat) (j : Nat)
    (d : Eliza.Decomp) (caps : List (List String))
    (h1 : Eliza.selectKeyword script (Eliza.normalize input) = some cand)
    (h2 : Eliza.firstDecompAux (Eliza.normalize input) 0
        cand.1.decompositions = some (j, d, caps)) :
    Eliza.respond script input st
      = Eliza.applyMatch script cand.1.keyword j d caps st := by
  unfold Eliza.respond
  simp only [h1]
  rw [h2]

theorem Eliza.finishMatch_ok (d : Eliza.Decomp) (caps : List (List String))
    (c : Nat) (st2 : Eliza.SessionState) (tpl : List Eliza.TplPart)
    (out : String)
    (hget : d.reassemblies.get? (c % d.reassemblies.length) = some tpl)
    (hout : Eliza.fillTemplate tpl caps = .ok out) :
    Eliza.finishMatch d caps c st2 = .ok (out, st2) := by
  unfold Eliza.finishMatch
  rw [hget]
  show (Eliza.fillTemplate tpl caps).map (fun o => (o, st2))
    = .ok (out, st2)
  rw [hout]
  rfl

theorem Eliza.finishMatch_ok_inv (d : Eliza.Decomp)
    (caps : List (List String)) (c : Nat) (st2 : Eliza.SessionState)
    (out : String) (stf : Eliza.SessionState)
    (h : Eliza.finishMatch d caps c st2 = .ok (out, stf)) : stf = st2 := by
  unfold Eliza.finishMatch at h
  cases hget : d.reassemblies.get? (c % d.reassemblies.length) with
  | none =>
    rw [hget] at h
    cases h
  | some tpl =>
    rw [hget] at h
    have h2 : (Eliza.fillTemplate tpl caps).map (fun o => (o, st2))
        = .ok (out, stf) := h
    cases hout : Eliza.fillTemplate tpl caps with
    | error e =>
      rw [hout] at h2
      cases h2
    | ok o =>
      rw [hout] at h2
      have h3 : (o, st2) = (out, stf) := by
        have := Except.ok.inj h2
        exact this
      exact (Prod.mk.injEq _ _ _ _ ▸ h3).2.symm

theorem Eliza.applyMatch_flag_false (script : Eliza.Script) (kw : String)
    (j : Nat) (d : Eliza.Decomp) (caps : List (List String))
    (st : Eliza.SessionState) (hflag : d.memoryFlag = false) :
    Eliza.applyMatch script kw j d caps st
      = Eliza.finishMatch d caps
          (Eliza.getCounter st.usageCounters (kw, j))
          (Eliza.bumpCounters st (kw, j)) := by
  unfold Eliza.applyMatch
  rw [hflag]
  rfl

theorem Eliza.applyMatch_flag_true (script : Eliza.Script) (kw : String)
    (j : Nat) (d : Eliza.Decomp) (caps : List (List String))
    (st : Eliza.SessionState) (ms : String) (hflag : d.memoryFlag = true)
    (hms : Eliza.fillTemplate (script.memoryTemplates.getD 0 []) caps
      = .ok ms) :
    Eliza.applyMatch script kw j d caps st
      = Eliza.finishMatch d caps
          (Eliza.getCounter st.usageCounters (kw, j))
          (Eliza.pushQueue (Eliza.bumpCounters st (kw, j)) ms) := by
  unfold Eliza.applyMatch
  rw [hflag]
  show ((match Eliza.fillTemplate (script.memoryTemplates.getD 0 []) caps
      with
    | Except.error e => Except.error e
    | Except.ok ms2 =>
      Eliza.finishMatch d caps
        (Eliza.getCounter st.usageCounters (kw, j))
        (Eliza.pushQueue (Eliza.bumpCounters st (kw, j)) ms2)) :
    Except Eliza.ConfigurationError (String × Eliza.SessionState)) = _
  rw [hms]

theorem Eliza.applyMatch_flag_true_error (script : Eliza.Script)
    (kw : String) (j : Nat) (d : Eliza.Decomp) (caps : List (List String))
    (st : Eliza.SessionState) (e : Eliza.ConfigurationError)
    (hflag : d.memoryFlag = true)
    (hms : Eliza.fillTemplate (script.memoryTemplates.getD 0 []) caps
      = .error e) :
    Eliza.applyMatch script kw j d caps st = .error e := by
  unfold Eliza.applyMatch
  rw [hflag]
  show ((match Eliza.fillTemplate (script.memoryTemplates.getD 0 []) caps
      with
    | Except.error e2 => Except.error e2
    | Except.ok ms2 =>
      Eliza.finishMatch d caps
        (Eliza.getCounter st.usageCounters (kw, j))
        (Eliza.pushQueue (Eliza.bumpCounters st (kw, j)) ms2)) :
    Except Eliza.ConfigurationError (String × Eliza.SessionState)) = _
  rw [hms]

theorem Eliza.applyMatch_spec (script : Eliza.Script) (kw : String)
    (j : Nat) (d : Eliza.Decomp) (caps : List (List String))
    (st : Eliza.SessionState)
    (hne : d.reassemblies ≠ [])
    (hfill : ∀ tpl ∈ d.reassemblies,
      (Eliza.fillTemplate tpl caps).isOk = true)
    (hmem : d.memoryFlag = false
      ∨ (Eliza.fillTemplate (script.memoryTemplates.getD 0 [])
          caps).isOk = true) :
    ∃ out st2, Eliza.applyMatch script kw j d caps st = .ok (out, st2)
      ∧ st2.usageCounters
          = Eliza.setCounter st.usageCounters (kw, j)
              (Eliza.getCounter st.usageCounters (kw, j) + 1)
      ∧ ∃ tpl, d.reassemblies.get?
            (Eliza.getCounter st.usageCounters (kw, j)
              % d.reassemblies.length) = some tpl
          ∧ Eliza.fillTemplate tpl caps = .ok out := by
  have hM : 0 < d.reassemblies.length := List.length_pos.mpr hne
  have hidx : Eliza.getCounter st.usageCounters (kw, j)
      % d.reassemblies.length < d.reassemblies.length :=
    Nat.mod_lt _ hM
  have hget := List.get?_eq_get hidx
  have htplmem := d.reassemblies.get_mem _ hidx
  obtain ⟨out, hout⟩ :=
    Eliza.except_isOk_exists _ (hfill _ htplmem)
  cases hflag : d.memoryFlag with
  | false =>
    refine ⟨out, _,
      (Eliza.applyMatch_flag_false script kw j d caps st hflag).trans
        (Eliza.finishMatch_ok d caps _ _ _ out hget hout),
      rfl, _, hget, hout⟩
  | true =>
    have hmok : (Eliza.fillTemplate (script.memoryTemplates.getD 0 [])
        caps).isOk = true := by
      rcases hmem with h | h
      · rw [hflag] at h
        cases h
      · exact h
    obtain ⟨ms, hms⟩ := Eliza.except_isOk_exists _ hmok
    refine ⟨out, _,
      (Eliza.applyMatch_flag_true script kw j d caps st ms hflag hms).trans
        (Eliza.finishMatch_ok d caps _ _ _ out hget hout),
      rfl, _, hget, hout⟩

theorem Eliza.applyMatch_ok_inv (script : Eliza.Script) (kw : String)
    (j : Nat) (d : Eliza.Decomp) (caps : List (List String))
    (st : Eliza.SessionState) (out : String) (st2 : Eliza.SessionState)
    (h : Eliza.applyMatch script kw j d caps st = .ok (out, st2))
    (hflag : d.memoryFlag = true) :
    ∃ ms, Eliza.fillTemplate (script.memoryTemplates.getD 0 [])
        caps = .ok ms
      ∧ st2.memoryQueue = Eliza.pushMemory st.memoryQueue ms := by
  cases hms : Eliza.fillTemplate (script.memoryTemplates.getD 0 []) caps with
  | error e =>
    rw [Eliza.applyMatch_flag_true_error script kw j d caps st e hflag hms]
      at h
    cases h
  | ok ms =>
    rw [Eliza.applyMatch_flag_true script kw j d caps st ms hflag hms] at h
    have hst := Eliza.finishMatch_ok_inv d caps _ _ out st2 h
    exact ⟨ms, rfl, by rw [hst]; rfl⟩

/-- C2: for a script that passes load-time validation (and whose memory
template references only capture slots every memory-flagged pattern
provides), the engine's sole entry point answers every turn: for every
input string — empty or nonsensical included — and every session state,
`respond` returns a response, and by its type its only possible failure
is a `ConfigurationError`. -/
theorem eliza_respond_total (script : Eliza.Script)
    (hload : (Eliza.loadScript script).isOk = true)
    (hmem : Eliza.memTplOk script = true) :
    ∀ input st, (Eliza.respond script input st).isOk = true := by
  intro input st
  cases hsel : Eliza.selectKeyword script (Eliza.normalize input) with
  | none => rw [Eliza.respond_no_match script input st hsel]; rfl
  | some cand =>
    cases hdec : Eliza.firstDecompAux (Eliza.normalize input) 0
        cand.1.decompositions with
    | none => rw [Eliza.respond_no_decomp script input st cand hsel hdec]; rfl
    | some jdc =>
      obtain ⟨j, d, caps⟩ := jdc
      rw [Eliza.respond_match script input st cand j d caps hsel hdec]
      have hrule : cand.1 ∈ script.rules :=
        Eliza.candidates_rule_mem _ _ _
          (Eliza.selectKeyword_mem _ _ _ hsel)
      obtain ⟨hdmem, hmp⟩ := Eliza.firstDecompAux_spec _ _ 0 j d caps hdec
      have hcaps : caps.length = Eliza.countWild d.pattern :=
        Eliza.matchPat_length _ _ _ hmp
      obtain ⟨hne, hbound⟩ :=
        Eliza.validScript_decomp script hload _ hrule d hdmem
      have hfill : ∀ tpl ∈ d.reassemblies,
          (Eliza.fillTemplate tpl caps).isOk = true := by
        intro tpl htpl
        obtain ⟨o, ho⟩ := Eliza.fillTemplate_isOk caps tpl
          (fun i hi => by rw [hcaps]; exact hbound tpl htpl i hi)
        rw [ho]
        rfl
      have hmemok : d.memoryFlag = false
          ∨ (Eliza.fillTemplate (script.memoryTemplates.getD 0 [])
              caps).isOk = true := by
        cases hflag : d.memoryFlag with
        | false => exact Or.inl rfl
        | true =>
          refine Or.inr ?_
          obtain ⟨o, ho⟩ := Eliza.fillTemplate_isOk caps _
            (fun i hi => by
              rw [hcaps]
              exact Eliza.memTplOk_spec script hmem _ hrule d hdmem
                hflag i hi)
          rw [ho]
          rfl
      obtain ⟨out, st2, hok, -⟩ :=
        Eliza.applyMatch_spec script cand.1.keyword j d caps st
          hne hfill hmemok
      rw [hok]
      rfl

/-- C3: the dialogue engine is deterministic — it is modelled as a pure
function of the rule table, the input text and the prior session state,
so two invocations agreeing on all three return equal responses; no
randomness, time, network or other external state enters. -/
theorem eliza_deterministic (script : Eliza.Script)
    (input1 input2 : String) (st1 st2 : Eliza.SessionState)
    (h1 : input1 = input2) (h2 : st1 = st2) :
    Eliza.respond script input1 st1 = Eliza.respond script input2 st2 := by
  rw [h1, h2]

theorem Eliza.respondN_rotation_aux (script : Eliza.Script) (input : String)
    (r : Eliza.Rule) (ridx j : Nat) (d : Eliza.Decomp)
    (caps : List (List String))
    (hsel : Eliza.selectKeyword script (Eliza.normalize input)
      = some (r, ridx))
    (hdec : Eliza.firstDecompAux (Eliza.normalize input) 0
      r.decompositions = some (j, d, caps))
    (hne : d.reassemblies ≠ [])
    (hfill : ∀ tpl ∈ d.reassemblies,
      (Eliza.fillTemplate tpl caps).isOk = true)
    (hmem : d.memoryFlag = false
      ∨ (Eliza.fillTemplate (script.memoryTemplates.getD 0 [])
          caps).isOk = true) :
    ∀ N st, ∃ rs stf,
      Eliza.respondN script input N st = .ok (rs, stf)
      ∧ rs.length = N
      ∧ Eliza.getCounter stf.usageCounters (r.keyword, j)
          = Eliza.getCounter st.usageCounters (r.keyword, j) + N
      ∧ ∀ k, k < N → ∃ tpl out,
          d.reassemblies.get?
            ((Eliza.getCounter st.usageCounters (r.keyword, j) + k)
              % d.reassemblies.length) = some tpl
          ∧ Eliza.fillTemplate tpl caps = .ok out
          ∧ rs.get? k = some out := by
  intro N
  induction N with
  | zero =>
    intro st
    exact ⟨[], st, rfl, rfl, by omega, fun k hk => absurd hk (by omega)⟩
  | succ n ih =>
    intro st
    obtain ⟨out, st2, hok, hcnt, tpl, hget, hout⟩ :=
      Eliza.applyMatch_spec script r.keyword j d caps st hne hfill hmem
    have hresp : Eliza.respond script input st = .ok (out, st2) := by
      rw [Eliza.respond_match script input st (r, ridx) j d caps hsel hdec]
      exact hok
    have hc2 : Eliza.getCounter st2.usageCounters (r.keyword, j)
        = Eliza.getCounter st.usageCounters (r.keyword, j) + 1 := by
      rw [hcnt]
      exact Eliza.getCounter_setCounter _ _ _
    obtain ⟨rs, stf, hN, hlen, hcf, hks⟩ := ih st2
    refine ⟨out :: rs, stf, ?_, by simp [hlen], by rw [hcf, hc2]; omega, ?_⟩
    · unfold Eliza.respondN
      simp only [hresp, hN]
    · intro k hk
      cases k with
      | zero =>
        refine ⟨tpl, out, ?_, hout, rfl⟩
        simpa using hget
      | succ k2 =>
        obtain ⟨tpl2, out2, hget2, hout2, hrs2⟩ := hks k2 (by omega)
        refine ⟨tpl2, out2, ?_, hout2, by simpa using hrs2⟩
        have harith : Eliza.getCounter st2.usageCounters (r.keyword, j) + k2
            = Eliza.getCounter st.usageCounters (r.keyword, j) + (k2 + 1) := by
          rw [hc2]
          omega
        rw [← harith]
        exact hget2

/-- C5: invoking the same (keyword, pattern) pair N times within one
session cycles through its M reassembly templates in order: starting
from a session whose counter for the pair is 0, the k-th invocation
(0-based k) answers with the filled template of index k mod M, and the
counter — stored in the SessionState — has been incremented to N after
the N invocations. -/
theorem eliza_reassembly_rotation (script : Eliza.Script) (input : String)
    (r : Eliza.Rule) (ridx j : Nat) (d : Eliza.Decomp)
    (caps : List (List String)) (N : Nat) (st0 : Eliza.SessionState)
    (hsel : Eliza.selectKeyword script (Eliza.normalize input)
      = some (r, ridx))
    (hdec : Eliza.firstDecompAux (Eliza.normalize input) 0
      r.decompositions = some (j, d, caps))
    (hne : d.reassemblies ≠ [])
    (hfill : ∀ tpl ∈ d.reassemblies,
      (Eliza.fillTemplate tpl caps).isOk = true)
    (hmem : d.memoryFlag = false
      ∨ (Eliza.fillTemplate (script.memoryTemplates.getD 0 [])
          caps).isOk = true)
    (h0 : Eliza.getCounter st0.usageCounters (r.keyword, j) = 0) :
    ∃ rs stf, Eliza.respondN script input N st0 = .ok (rs, stf)
      ∧ rs.length = N
      ∧ Eliza.getCounter stf.usageCounters (r.keyword, j) = N
      ∧ ∀ k, k < N → ∃ tpl out,
          d.reassemblies.get? (k % d.reassemblies.length) = some tpl
          ∧ Eliza.fillTemplate tpl caps = .ok out
          ∧ rs.get? k = some out := by
  obtain ⟨rs, stf, h1, h2, h3, h4⟩ :=
    Eliza.respondN_rotation_aux script input r ridx j d caps hsel hdec
      hne hfill hmem N st0
  refine ⟨rs, stf, h1, h2, by rw [h3, h0]; omega, ?_⟩
  intro k hk
  obtain ⟨tpl, out, hget, hout, hrs⟩ := h4 k hk
  rw [h0] at hget
  exact ⟨tpl, out, by simpa using hget, hout, hrs⟩

/-- C6: in any session, an utterance matching a memory-flagged
decomposition pattern, followed immediately by an utterance with no
keyword match, makes the engine return the stored, pronoun-transformed
memory statement — the oldest entry popped from the FIFO memoryQueue —
as the second turn's response, rather than a generic fallback (stated
here for a session whose queue was empty before the first turn, so the
popped oldest entry is that turn's statement). -/
theorem eliza_memory_roundtrip (script : Eliza.Script) (u1 u2 : String)
    (st0 : Eliza.SessionState) (r : Eliza.Rule) (ridx j : Nat)
    (d : Eliza.Decomp) (caps : List (List String)) (resp1 : String)
    (st1 : Eliza.SessionState)
    (hq0 : st0.memoryQueue = [])
    (hsel1 : Eliza.selectKeyword script (Eliza.normalize u1)
      = some (r, ridx))
    (hdec1 : Eliza.firstDecompAux (Eliza.normalize u1) 0
      r.decompositions = some (j, d, caps))
    (hflag : d.memoryFlag = true)
    (hrun1 : Eliza.respond script u1 st0 = .ok (resp1, st1))
    (hsel2 : Eliza.selectKeyword script (Eliza.normalize u2) = none) :
    ∃ memS st2,
      Eliza.fillTemplate (script.memoryTemplates.getD 0 []) caps
        = .ok memS
      ∧ Eliza.respond script u2 st1 = .ok (memS, st2)
      ∧ st2.memoryQueue = [] := by
  rw [Eliza.respond_match script u1 st0 (r, ridx) j d caps hsel1 hdec1]
    at hrun1
  obtain ⟨ms, hms, hqueue⟩ :=
    Eliza.applyMatch_ok_inv script r.keyword j d caps st0 resp1 st1
      hrun1 hflag
  have hq1 : st1.memoryQueue = [ms] := by
    rw [hqueue, hq0]
    rfl
  rw [Eliza.respond_no_match script u2 st1 hsel2]
  refine ⟨ms, { st1 with memoryQueue := [] }, hms, ?_, rfl⟩
  unfold Eliza.noMatchTurn
  rw [hq1]

/-- C1: the claim states that `ElizaService.getResponse(message, history)`
resolves to the Eliza engine's response `getBotResponse(message)` and to
no other string. The copy in src/unnamed/part_001 violates this: with an
engine that answers "Please go on." to "hello", it resolves to the user's
own text "hello", while the doc comment above it promises the
pattern-matched response — as the src/unnamed/part_005 copies indeed
return. This theorem evaluates both versions at that input. -/
theorem elizaService_part001_resolves_input :
    ElizaService.getResponse_part001 (fun _ => "Please go on.") "hello"
      = "hello"
    ∧ ElizaService.getResponse_part005 (fun _ => "Please go on.") "hello"
      = "Please go on."
    ∧ ("hello" : String) ≠ "Please go on." := by
  refine ⟨rfl, rfl, ?_⟩
  decide

/-- C8: `ChatModel.create(text, isUser)` throws exactly when the trimmed
text is empty, and then leaves the stored list unchanged; otherwise it
appends exactly one message — text trimmed, `edited = false` — to the
end of the stored list and returns it. -/
theorem chatModel_create_spec (newId : String) (now : Nat) (text : String)
    (isUser : Bool) (stored : List ChatModel.Message) :
    ((ChatModel.create newId now text isUser stored).1.isOk
        ↔ ChatModel.trimString text ≠ "")
    ∧ (ChatModel.trimString text = "" →
        (ChatModel.create newId now text isUser stored).2 = stored)
    ∧ (ChatModel.trimString text ≠ "" →
        (ChatModel.create newId now text isUser stored).2
            = stored ++
              [(⟨newId, ChatModel.trimString text, isUser, now, false, none⟩ :
                ChatModel.Message)]
          ∧ (ChatModel.create newId now text isUser stored).1
            = .ok (⟨newId, ChatModel.trimString text, isUser, now, false,
                none⟩ : ChatModel.Message)) := by
  by_cases h : ChatModel.trimString text = "" <;>
    simp [ChatModel.create, h, Except.isOk, Except.toBool]

/-- Sanity check kept out of the claims: the JS-style trim drops
surrounding whitespace. -/
theorem trimString_example :
    ChatModel.trimString "  hi  " = "hi" ∧ ChatModel.trimString "   " = "" :=
  ⟨rfl, rfl⟩


/-- C9 (amended): for a `newText` whose trimmed form is nonempty,
`ChatModel.update(id, newText)` returns `null` leaving storage unchanged
when no stored message has the id; throws leaving storage unchanged when
the found message is a bot message; and otherwise returns the target
message with only `text` (trimmed), `edited` and `editedAt` changed,
storing a list of the same length in which every message whose id
differs from the target's is unchanged at its position. (The unamended
claim also asserted the `null` outcome for empty `newText`, where the
code in fact throws — see the counterexample.) -/
theorem chatModel_update_spec (now : Nat) (id newText : String)
    (stored : List ChatModel.Message)
    (h : ChatModel.trimString newText ≠ "") :
    (stored.find? (fun m => m.id == id) = none →
      ChatModel.update now id newText stored = (.ok none, stored))
    ∧ (∀ m, stored.find? (fun m2 => m2.id == id) = some m →
        m.isUser = false →
        ChatModel.update now id newText stored
          = (.error "Cannot edit bot messages", stored))
    ∧ (∀ m, stored.find? (fun m2 => m2.id == id) = some m →
        m.isUser = true →
        (ChatModel.update now id newText stored).1
          = .ok (some (ChatModel.applyEdit now newText m))
        ∧ (ChatModel.update now id newText stored).2.length = stored.length
        ∧ ∀ i m2, stored.get? i = some m2 → m2.id ≠ id →
            (ChatModel.update now id newText stored).2.get? i = some m2) := by
  refine ⟨?_, ?_, ?_⟩
  · intro hf
    simp [ChatModel.update, h, hf]
  · intro m hf hbot
    simp [ChatModel.update, h, hf, hbot]
  · intro m hf huser
    have hupd : ChatModel.update now id newText stored
        = (.ok (some (ChatModel.applyEdit now newText m)),
           ChatModel.updateFirst id (ChatModel.applyEdit now newText)
             stored) := by
      simp [ChatModel.update, h, hf, huser]
    refine ⟨by rw [hupd],
      by rw [hupd]; exact ChatModel.length_updateFirst _ _ _, ?_⟩
    intro i m2 hget hne
    rw [hupd]
    exact ChatModel.updateFirst_get?_ne id _ stored i m2 hget hne

/-- C9 witness: at `now = 5`, `id = "b"`, `newText = "hi"` and empty
storage, no message has the id and `update` returns `null` leaving the
empty storage unchanged. -/
theorem chatModel_update_spec_witness :
    ChatModel.update 5 "b" "hi" []
      = (.ok none, ([] : List ChatModel.Message)) :=
  (chatModel_update_spec 5 "b" "hi" [] (by decide)).1 rfl

/-- C9 counterexample: with empty storage no message has id "b", so the
claim as stated promises a `null` return, but `update` called with the
empty string as the new text throws the empty-text error instead. -/
theorem chatModel_update_empty_text_cex :
    ([] : List ChatModel.Message).find? (fun m => m.id == "b") = none
    ∧ (ChatModel.update 5 "b" "" []).1
      = .error "Message text cannot be empty" :=
  ⟨rfl, rfl⟩

/-- C10: `GeminiService.getResponse` fails for every call — with an empty
API key it throws the missing-key error, and with any other key
`_buildContents` raises the `contents.psu` TypeError — so the adapter can
never resolve to a response string. -/
theorem geminiService_getResponse_always_errors (apiKey message : String)
    (history : List GeminiService.HistMsg) :
    (GeminiService.getResponse apiKey message history).isOk = false := by
  by_cases h : apiKey = "" <;>
    simp [GeminiService.getResponse, GeminiService.buildContents, h,
      Except.isOk, Except.toBool]

/-- C2 witness: the concrete script `wScript` passes load-time
validation, its memory template is honest, and `respond` answers the
empty input from a fresh session. -/
theorem eliza_respond_total_witness :
    (Eliza.respond Eliza.wScript "" Eliza.createSession).isOk = true :=
  eliza_respond_total Eliza.wScript (by rfl) (by rfl) "" Eliza.createSession

/-- C3 witness: two invocations with the same script, input and session
state return the same response. -/
theorem eliza_deterministic_witness :
    Eliza.respond Eliza.wScript "hello" Eliza.createSession
      = Eliza.respond Eliza.wScript "hello" Eliza.createSession :=
  eliza_deterministic Eliza.wScript "hello" "hello" Eliza.createSession
    Eliza.createSession rfl rfl

/-- C5 witness: five invocations of "my dog" against `wScript` from a
fresh session rotate through the three templates of `wMyDecomp` in the
order 0, 1, 2, 0, 1 and leave the pair's counter at 5. -/
theorem eliza_reassembly_rotation_witness :
    ∃ rs stf,
      Eliza.respondN Eliza.wScript "my dog" 5 Eliza.createSession
        = .ok (rs, stf)
      ∧ rs.length = 5
      ∧ Eliza.getCounter stf.usageCounters (Eliza.wMyRule.keyword, 0) = 5
      ∧ ∀ k, k < 5 → ∃ tpl out,
          Eliza.wMyDecomp.reassemblies.get?
            (k % Eliza.wMyDecomp.reassemblies.length) = some tpl
          ∧ Eliza.fillTemplate tpl [["dog"]] = .ok out
          ∧ rs.get? k = some out :=
  eliza_reassembly_rotation Eliza.wScript "my dog" Eliza.wMyRule 0 0
    Eliza.wMyDecomp [["dog"]] 5 Eliza.createSession (by rfl) (by rfl)
    (by decide) (by decide) (Or.inr (by rfl)) rfl

/-- C6 witness: against `wScript`, the memory-flagged turn "my dog"
followed by the unmatchable turn "qqqq zzz" makes the second turn answer
with the memorized, pronoun-transformed statement. -/
theorem eliza_memory_roundtrip_witness :
    ∃ memS st2,
      Eliza.fillTemplate (Eliza.wScript.memoryTemplates.getD 0 [])
          [["dog"]] = .ok memS
      ∧ Eliza.respond Eliza.wScript "qqqq zzz" Eliza.wSt1
          = .ok (memS, st2)
      ∧ st2.memoryQueue = [] :=
  eliza_memory_roundtrip Eliza.wScript "my dog" "qqqq zzz"
    Eliza.createSession Eliza.wMyRule 0 0 Eliza.wMyDecomp [["dog"]]
    "Your dog" Eliza.wSt1 rfl (by rfl) (by rfl) rfl (by rfl) (by rfl)
